import Mathlib

/-!
Shallow embedding of the knowledge-graph construction engine of the
Knowledge-Graph-RAG repository (`construct.py`, `Edge.py`, `Node.py`,
`paper_cache.py`, `main.py`), together with theorems settling the
specification claims about it.

Modelling conventions:
* Python floats are modelled as `ℚ`; `round(x, 4)` is modelled as exact
  rational round-half-to-even at four decimal places (Python's rounding mode).
* Python `uuid.uuid4()` identifiers (and their hashes) are modelled by
  creation-order natural numbers: an arbitrary injective assignment with a
  total order, which is all the code relies on.
* Python's runtime `hash` of a string (affiliation names) is modelled by the
  lexicographic order on character codes (`strLt`): an arbitrary fixed total
  order, which is all the canonicalisation code relies on.
* Python dicts are modelled as association lists with insert-or-replace
  update; iteration order is insertion order, as in CPython.
* Wall-clock timestamps and log output are not modelled.
-/

/-- `Author_metadata.Author` (pydantic): name, affiliation, optional email and
optional author order. -/
structure AuthorMeta where
  Name : String
  Affiliation : String
  Email : Option String := none
  Author_Order : Option Int := none
deriving DecidableEq, Repr

/-- `Node.Paper`: title (identity), abstract, optional field tag. -/
structure PaperRec where
  Title : String
  Abstract : String
  field : Option String := none
deriving DecidableEq, Repr

/-- `getattr(author, 'Author_Order', 1) or 1` from
`construct.KnowledgeGraphBuilder.calculate_author_credit`: a missing order and
the falsy order `0` both default to `1`. -/
def effOrder (a : AuthorMeta) : Int :=
  match a.Author_Order with
  | none => 1
  | some o => if o = 0 then 1 else o

/-- Round-half-to-even of a rational to an integer (Python `round` on exact
ties; ties at four decimal places do not occur in the claims). -/
def roundHalfEven (x : ℚ) : ℤ :=
  if x - ⌊x⌋ < 1/2 then ⌊x⌋
  else if 1/2 < x - ⌊x⌋ then ⌊x⌋ + 1
  else if ⌊x⌋ % 2 = 0 then ⌊x⌋ else ⌊x⌋ + 1

/-- `round(q, 4)` from `calculate_author_credit`. -/
def round4 (q : ℚ) : ℚ := (roundHalfEven (q * 10000) : ℚ) / 10000

/-- `sum(1/order for order in author_orders)` from `calculate_author_credit`. -/
def harmonicSum (authors : List AuthorMeta) : ℚ :=
  (authors.map (fun a => (1 : ℚ) / (effOrder a : ℚ))).sum

/-- The per-author harmonic credit
`round((1/order) / sum_harmonic, 4)` from `calculate_author_credit`. -/
def credit (authors : List AuthorMeta) (a : AuthorMeta) : ℚ :=
  round4 (((1 : ℚ) / (effOrder a : ℚ)) / harmonicSum authors)

/-- Python dict write `d[k] = v`: replace the value at an existing key in
place, else append a new binding (CPython preserves insertion order). -/
def dictInsert (d : List (String × ℚ)) (k : String) (v : ℚ) :
    List (String × ℚ) :=
  if d.any (fun p => p.1 = k) then
    d.map (fun p => if p.1 = k then (k, v) else p)
  else d ++ [(k, v)]

/-- Python `d.get(k, v0)`. -/
def dictGetD (d : List (String × ℚ)) (k : String) (v0 : ℚ) : ℚ :=
  match d.find? (fun p => p.1 = k) with
  | some p => p.2
  | none => v0

/-- `KnowledgeGraphBuilder.calculate_author_credit`: builds the
name-to-weight dict, assigning each author `round((1/order)/sum_harmonic, 4)`
keyed by the author's name. -/
def calculate_author_credit (authors : List AuthorMeta) : List (String × ℚ) :=
  authors.foldl (fun d a => dictInsert d a.Name (credit authors a)) []

/-! ## Graph model (`construct.KnowledgeGraphBuilder` over `networkx.MultiDiGraph`) -/

/-- Graph node identifiers: authors and entities are keyed by their
`uuid.uuid4()` identifier (modelled as a creation-order number), papers by
title, affiliations by name — exactly the ids used in `graph.add_node`. -/
inductive NodeId where
  | author (k : Nat)
  | paper (title : String)
  | affil (name : String)
  | entity (k : Nat)
deriving DecidableEq, Repr

/-- A graph node together with its `node_type` attribute. -/
structure GNode where
  id : NodeId
  node_type : String
deriving DecidableEq, Repr

/-- A Python edge object (`Edge.BaseEdge` subclass): source, target, relation
label and the attribute bag, flattened into the attribute keys the edge
classes actually use. -/
structure EdgeObj where
  source : NodeId
  target : NodeId
  relation : String
  author_order : Option Int := none
  weight : Option ℚ := none
  rank : Option Int := none
  coauthored_paper_list : Option (List String) := none
  collaboration_paper_list : Option (List String) := none
deriving DecidableEq, Repr

/-- One `MultiDiGraph` edge: endpoints, multi-edge key, and the attribute
dict passed to `graph.add_edge` (the `edge_object` attribute is a reference
into the builder's edge-object heap, modelling Python object aliasing). -/
structure GEdge where
  src : NodeId
  tgt : NodeId
  key : Nat
  edge_type : String
  author_order : Option Int := none
  weight : Option ℚ := none
  rank : Option Int := none
  coauthored_papers : List String := []
  collaboration_papers : List String := []
  obj : Nat
deriving DecidableEq, Repr

/-- Entry of the builder's `self.authors` cache: name, node key (uuid
stand-in) and the email currently stored on the `Author` object. -/
structure AuthorEntry where
  name : String
  key : Nat
  email : Option String
deriving DecidableEq, Repr

/-- `Node.Entity` data as handled by `get_or_create_entity`. -/
structure EntityRec where
  name : String
  field : Option String := none
  description : Option String := none
  entity_type : Option String := none
deriving DecidableEq, Repr

/-- `construct.KnowledgeGraphBuilder` state: the per-type identity caches,
the `MultiDiGraph` (nodes and keyed multi-edges), the heap of Python edge
objects and the `self.edges` list (as heap references), plus the uuid
counter. -/
structure Builder where
  authors : List AuthorEntry := []
  affiliations : List String := []
  papers : List PaperRec := []
  entities : List (String × Nat) := []
  nodes : List GNode := []
  edgeObjs : List EdgeObj := []
  selfEdges : List Nat := []
  gEdges : List GEdge := []
  nextKey : Nat := 0
deriving Repr

/-- `KnowledgeGraphBuilder.__init__`. -/
def emptyBuilder : Builder := {}

/-- Lexicographic order on lists of character codes. -/
def natListLt : List Nat → List Nat → Bool
  | [], [] => false
  | [], _ :: _ => true
  | _ :: _, [] => false
  | x :: xs, y :: ys => if x < y then true else if y < x then false else natListLt xs ys

/-- A fixed total order on strings (lexicographic by character code),
standing in for the comparison of Python runtime string hashes in
`AffiliationCollaborationEdge.__init__`. -/
def strLt (s t : String) : Bool :=
  natListLt (s.data.map Char.toNat) (t.data.map Char.toNat)

/-- Truthiness of an optional Python string (`None` and `""` are falsy). -/
def strTruthy : Option String → Bool
  | none => false
  | some s => !s.isEmpty

/-- `KnowledgeGraphBuilder.get_or_create_author`: reuse the cached author
node for the name, filling in a missing email, else create a fresh node. -/
def get_or_create_author (b : Builder) (name : String) (email : Option String) :
    Builder × Nat :=
  match b.authors.find? (fun e => e.name = name) with
  | some e =>
    let b' :=
      if strTruthy email ∧ e.email = none then
        { b with authors :=
            b.authors.map (fun x => if x.name = name then { x with email := email } else x) }
      else b
    (b', e.key)
  | none =>
    let k := b.nextKey
    ({ b with
        authors := b.authors ++ [⟨name, k, email⟩],
        nodes := b.nodes ++ [⟨.author k, "Author"⟩],
        nextKey := k + 1 }, k)

/-- `KnowledgeGraphBuilder.get_or_create_affiliation` (keyed by name). -/
def get_or_create_affiliation (b : Builder) (name : String) : Builder :=
  if name ∈ b.affiliations then b
  else
    { b with
        affiliations := b.affiliations ++ [name],
        nodes := b.nodes ++ [⟨.affil name, "Affiliation"⟩] }

/-- `KnowledgeGraphBuilder.add_paper` (keyed by title). -/
def add_paper (b : Builder) (p : PaperRec) : Builder :=
  if b.papers.any (fun q => q.Title = p.Title) then b
  else
    { b with
        papers := b.papers ++ [p],
        nodes := b.nodes ++ [⟨.paper p.Title, "Paper"⟩] }

/-- `KnowledgeGraphBuilder.get_or_create_entity` (cache keyed by name, node
keyed by the entity's uuid). -/
def get_or_create_entity (b : Builder) (e : EntityRec) : Builder × Nat :=
  match b.entities.find? (fun p => p.1 = e.name) with
  | some p => (b, p.2)
  | none =>
    let k := b.nextKey
    ({ b with
        entities := b.entities ++ [(e.name, k)],
        nodes := b.nodes ++ [⟨.entity k, "Entity"⟩],
        nextKey := k + 1 }, k)

/-- `KnowledgeGraphBuilder.find_existing_edge`: scan the keyed edges between
`src` and `tgt` in insertion order for one of the given type; return its
`edge_object` reference and key. -/
def find_existing_edge (b : Builder) (src tgt : NodeId) (etype : String) :
    Option (Nat × Nat) :=
  ((b.gEdges.filter (fun e => e.src = src ∧ e.tgt = tgt)).find?
      (fun e => e.edge_type = etype)).map (fun e => (e.obj, e.key))

/-- `KnowledgeGraphBuilder.update_edge_in_graph`, specialised to the updates
the call sites perform (the attribute dict passed in each call updates the
evidence-list attribute; `display_info` is derived display text, not
modelled). -/
def update_edge_in_graph (b : Builder) (src tgt : NodeId) (key : Nat)
    (upd : GEdge → GEdge) : Builder :=
  { b with gEdges :=
      b.gEdges.map (fun e =>
        if e.src = src ∧ e.tgt = tgt ∧ e.key = key then upd e else e) }

/-- `networkx.MultiDiGraph.add_edge` with an automatic key: the fresh key is
the number of existing parallel edges between the endpoints. -/
def add_gedge (b : Builder) (e : GEdge) : Builder :=
  { b with gEdges :=
      b.gEdges ++ [{ e with key :=
        (b.gEdges.filter (fun x => x.src = e.src ∧ x.tgt = e.tgt)).length }] }

/-- Allocate a Python edge object on the heap, returning its reference
(appended to `self.edges` by the callers that do so). -/
def pushObj (b : Builder) (o : EdgeObj) : Builder × Nat :=
  ({ b with edgeObjs := b.edgeObjs ++ [o] }, b.edgeObjs.length)

/-- In-place mutation of the heap object at reference `i`. -/
def modifyObj : List EdgeObj → Nat → (EdgeObj → EdgeObj) → List EdgeObj
  | [], _, _ => []
  | o :: rest, 0, f => f o :: rest
  | o :: rest, i + 1, f => o :: modifyObj rest i f

/-- `AuthorCoauthorEdge.add_coauthored_paper`: initialise the evidence list if
absent, then append the paper only if it is not already present
(`Paper.__eq__` compares titles, so membership is by title). -/
def add_coauthored_paper (o : EdgeObj) (title : String) : EdgeObj :=
  let l := o.coauthored_paper_list.getD []
  if title ∈ l then { o with coauthored_paper_list := some l }
  else { o with coauthored_paper_list := some (l ++ [title]) }

/-- `AffiliationCollaborationEdge.add_collaboration_paper`: same
append-if-absent rule on the collaboration evidence list. -/
def add_collaboration_paper (o : EdgeObj) (title : String) : EdgeObj :=
  let l := o.collaboration_paper_list.getD []
  if title ∈ l then { o with collaboration_paper_list := some l }
  else { o with collaboration_paper_list := some (l ++ [title]) }

/-! ## `process_author_list_and_paper` -/

/-- State threaded through the per-author loop: the builder, the accumulated
`author_nodes` (as node keys) and the `paper_affiliations` set (a Python set,
modelled as a duplicate-free list in insertion order). -/
structure AuthorLoopState where
  b : Builder
  authorKeys : List Nat
  affSet : List String
deriving Repr

/-- One iteration of the per-author loop of `process_author_list_and_paper`:
create/fetch the author node, build the `AuthorPaperEdge` (initial weight 0,
then `update_weight` with the credit looked up by name, default 0.0), add the
graph edge with the hard-coded attribute `weight=0.0`, then handle the
author's affiliation (`AuthorAffiliationEdge` added to the graph only if no
edge between the pair exists yet). -/
def authorStep (weights : List (String × ℚ)) (pTitle : String)
    (st : AuthorLoopState) (a : AuthorMeta) : AuthorLoopState :=
  let (b, k) := get_or_create_author st.b a.Name a.Email
  let order := effOrder a
  let w := dictGetD weights a.Name 0
  let apObj : EdgeObj :=
    { source := .author k, target := .paper pTitle, relation := "writes",
      author_order := some order, weight := some w }
  let (b, r) := pushObj b apObj
  let b := { b with selfEdges := b.selfEdges ++ [r] }
  let b := add_gedge b
    { src := .author k, tgt := .paper pTitle, key := 0,
      edge_type := "AuthorPaper", author_order := some order,
      weight := some 0, obj := r }
  if a.Affiliation.isEmpty then
    { b := b, authorKeys := st.authorKeys ++ [k], affSet := st.affSet }
  else
    let b := get_or_create_affiliation b a.Affiliation
    let affSet :=
      if a.Affiliation ∈ st.affSet then st.affSet else st.affSet ++ [a.Affiliation]
    let afObj : EdgeObj :=
      { source := .author k, target := .affil a.Affiliation,
        relation := "is_affiliated_with", rank := some 0 }
    let (b, r') := pushObj b afObj
    let b := { b with selfEdges := b.selfEdges ++ [r'] }
    let b :=
      if b.gEdges.any (fun e => e.src = .author k ∧ e.tgt = .affil a.Affiliation) then b
      else add_gedge b
        { src := .author k, tgt := .affil a.Affiliation, key := 0,
          edge_type := "AuthorAffiliation", rank := some 0, obj := r' }
    { b := b, authorKeys := st.authorKeys ++ [k], affSet := affSet }

/-- The index pairs `(i, j)` with `i < j` visited by the nested loops over a
list, in iteration order. -/
def ordPairs {α : Type} : List α → List (α × α)
  | [] => []
  | x :: xs => xs.map (fun y => (x, y)) ++ ordPairs xs

/-- One iteration of the coauthor loop: build an `AuthorCoauthorEdge`
(`__init__` swaps the endpoints when `hash(author1) > hash(author2)`; the
runtime hash of the author's uuid is modelled by the creation key), then
either update the existing Coauthor edge — mutating its shared edge object
via `add_coauthored_paper` and writing the object's list into the graph
attribute `coauthored_papers` — or add a fresh Coauthor graph edge. -/
def coauthorStep (pTitle : String) (b : Builder) (pair : Nat × Nat) : Builder :=
  let a1 := if pair.1 > pair.2 then pair.2 else pair.1
  let a2 := if pair.1 > pair.2 then pair.1 else pair.2
  let coObj : EdgeObj :=
    { source := .author a1, target := .author a2, relation := "coauthor_of",
      weight := some 0, coauthored_paper_list := some [pTitle] }
  let (b, r) := pushObj b coObj
  let b := { b with selfEdges := b.selfEdges ++ [r] }
  match find_existing_edge b (.author a1) (.author a2) "Coauthor" with
  | some (objRef, key) =>
    let b := { b with edgeObjs := modifyObj b.edgeObjs objRef (fun o => add_coauthored_paper o pTitle) }
    let newList := ((b.edgeObjs.getD objRef coObj).coauthored_paper_list).getD []
    update_edge_in_graph b (.author a1) (.author a2) key
      (fun e => { e with coauthored_papers := newList })
  | none =>
    add_gedge b
      { src := .author a1, tgt := .author a2, key := 0, edge_type := "Coauthor",
        weight := some 0, coauthored_papers := [pTitle], obj := r }

/-- One iteration of the Paper-Affiliation loop: unconditional
`add_edge`. -/
def paperAffilStep (pTitle : String) (b : Builder) (affName : String) : Builder :=
  let paObj : EdgeObj :=
    { source := .paper pTitle, target := .affil affName,
      relation := "is_associated_with" }
  let (b, r) := pushObj b paObj
  let b := { b with selfEdges := b.selfEdges ++ [r] }
  add_gedge b
    { src := .paper pTitle, tgt := .affil affName, key := 0,
      edge_type := "PaperAffiliation", obj := r }

/-- One iteration of the affiliation-collaboration loop
(`AffiliationCollaborationEdge.__init__` swaps when
`hash(affiliation1) > hash(affiliation2)`; the runtime string hash is
modelled by the lexicographic order on the names). -/
def collabStep (pTitle : String) (b : Builder) (pair : String × String) : Builder :=
  let n1 := if strLt pair.2 pair.1 then pair.2 else pair.1
  let n2 := if strLt pair.2 pair.1 then pair.1 else pair.2
  let clObj : EdgeObj :=
    { source := .affil n1, target := .affil n2, relation := "collaborates_with",
      weight := some 0, collaboration_paper_list := some [pTitle] }
  let (b, r) := pushObj b clObj
  let b := { b with selfEdges := b.selfEdges ++ [r] }
  match find_existing_edge b (.affil n1) (.affil n2) "AffiliationCollaboration" with
  | some (objRef, key) =>
    let b := { b with edgeObjs := modifyObj b.edgeObjs objRef (fun o => add_collaboration_paper o pTitle) }
    let newList := ((b.edgeObjs.getD objRef clObj).collaboration_paper_list).getD []
    update_edge_in_graph b (.affil n1) (.affil n2) key
      (fun e => { e with collaboration_papers := newList })
  | none =>
    add_gedge b
      { src := .affil n1, tgt := .affil n2, key := 0,
        edge_type := "AffiliationCollaboration", weight := some 0,
        collaboration_papers := [pTitle], obj := r }

/-- `KnowledgeGraphBuilder.process_author_list_and_paper`: add the paper,
compute the harmonic credits, run the per-author loop, the coauthor pair
loop, the paper-affiliation loop and the affiliation-collaboration pair
loop. -/
def process_author_list_and_paper (b : Builder) (authors : List AuthorMeta)
    (p : PaperRec) : Builder :=
  let b := add_paper b p
  let weights := calculate_author_credit authors
  let st := authors.foldl (authorStep weights p.Title) ⟨b, [], []⟩
  let b := (ordPairs st.authorKeys).foldl (coauthorStep p.Title) st.b
  let b := st.affSet.foldl (paperAffilStep p.Title) b
  (ordPairs st.affSet).foldl (collabStep p.Title) b

/-- `KnowledgeGraphBuilder.add_paper_entity_relation`: add the paper and the
entity, build a `PaperEntityEdge` (weight 0, then `update_weight(weight)`),
and add the graph edge carrying the given weight. -/
def add_paper_entity_relation (b : Builder) (p : PaperRec) (ent : EntityRec)
    (weight : ℚ) : Builder :=
  let b := add_paper b p
  let (b, k) := get_or_create_entity b ent
  let peObj : EdgeObj :=
    { source := .paper p.Title, target := .entity k, relation := "researchs",
      weight := some weight }
  let (b, r) := pushObj b peObj
  let b := { b with selfEdges := b.selfEdges ++ [r] }
  add_gedge b
    { src := .paper p.Title, tgt := .entity k, key := 0,
      edge_type := "PaperEntity", weight := some weight, obj := r }

/-! ## `get_graph_statistics` -/

/-- First-occurrence deduplication (the key order of a Python
`defaultdict` filled in iteration order). -/
def firstDedup (l : List String) : List String :=
  l.foldl (fun acc x => if x ∈ acc then acc else acc ++ [x]) []

/-- Counting occurrences per type tag, in first-occurrence order (the
`node_types` / `edge_types` defaultdicts turned into plain dicts). -/
def typeCounts (l : List String) : List (String × Nat) :=
  (firstDedup l).map (fun t => (t, l.count t))

/-- Merge step for weakly-connected components: fuse all components meeting
either endpoint of an edge. -/
def mergeComps (comps : List (List NodeId)) (e : NodeId × NodeId) :
    List (List NodeId) :=
  let touched := comps.filter (fun c => e.1 ∈ c ∨ e.2 ∈ c)
  let rest := comps.filter (fun c => ¬ (e.1 ∈ c ∨ e.2 ∈ c))
  match touched with
  | [] => comps
  | _ => touched.foldl (fun acc c => acc ++ c) [] :: rest

/-- The weakly-connected components of the builder's graph (ignoring edge
direction), as computed by `networkx` for a non-null graph. -/
def weakComponents (b : Builder) : List (List NodeId) :=
  (b.gEdges.map (fun e => (e.src, e.tgt))).foldl mergeComps
    (b.nodes.map (fun n => [n.id]))

/-- The dictionary returned by `get_graph_statistics`. -/
structure GraphStats where
  total_nodes : Nat
  total_edges : Nat
  node_types : List (String × Nat)
  edge_types : List (String × Nat)
  is_connected : Bool
  number_of_components : Nat
deriving DecidableEq, Repr

/-- `KnowledgeGraphBuilder.get_graph_statistics`: builds the statistics
dictionary; `nx.is_weakly_connected` raises `NetworkXPointlessConcept`
(\"Connectivity is undefined for the null graph.\") when the graph has no
nodes, so the call fails on an empty builder. -/
def get_graph_statistics (b : Builder) : Except String GraphStats :=
  if b.nodes.isEmpty then
    .error "Connectivity is undefined for the null graph."
  else
    .ok
      { total_nodes := b.nodes.length,
        total_edges := b.gEdges.length,
        node_types := typeCounts (b.nodes.map (fun n => n.node_type)),
        edge_types := typeCounts (b.gEdges.map (fun e => e.edge_type)),
        is_connected := (weakComponents b).length = 1,
        number_of_components := (weakComponents b).length }

/-! ## Entity consolidation (Entity Resolver) -/

/-- Modelled from the spec: `combine_entities_by_name` is invoked in
`main.py` (the post-ingestion consolidation pass) but its definition is
missing from the sources; per spec §4.4, merging concept `B` into canonical
`A` re-points every edge incident on `B` to `A` (source or target updated
accordingly, preserving edge attributes) and removes `B` from the active
entity index (and its node from the graph). -/
def combine_entities_by_name (b : Builder) (sourceName targetName : String) :
    Builder :=
  match b.entities.find? (fun p => p.1 = sourceName),
        b.entities.find? (fun p => p.1 = targetName) with
  | some ps, some pt =>
    let repoint : NodeId → NodeId :=
      fun n => if n = .entity ps.2 then .entity pt.2 else n
    { b with
        gEdges := b.gEdges.map (fun e =>
          { e with src := repoint e.src, tgt := repoint e.tgt }),
        edgeObjs := b.edgeObjs.map (fun o =>
          { o with source := repoint o.source, target := repoint o.target }),
        nodes := b.nodes.filter (fun n => n.id ≠ .entity ps.2),
        entities := b.entities.filter (fun p => p.1 ≠ sourceName) }
  | _, _ => b

/-! ## `paper_cache.PaperCache` and the cached extractors -/

/-- `entity_extraction.EntityToEntityEdge` relation data as cached
(`source_name`, `target_name`, `description`, `strength`). -/
structure RelationRec where
  source_name : String
  target_name : String
  description : String
  strength : ℚ
deriving DecidableEq, Repr

/-- One paper's cache record: title plus the optional per-stage fields of
`update_paper_data` (creation/update timestamps are wall-clock data, not
modelled). -/
structure CacheRecord where
  title : String
  abstract : Option String := none
  field : Option String := none
  author_metadata : Option (List AuthorMeta) := none
  entities : Option (List EntityRec) := none
  relations : Option (List RelationRec) := none
deriving DecidableEq, Repr

/-- The JSON cache mapping (`self.cache_data`), keyed by paper id. -/
abbrev CacheMap : Type := List (String × CacheRecord)

/-- `PaperCache._generate_paper_id`: the MD5 hex digest of the title — a
deterministic injective function of the title, modelled by the title
itself. -/
def generate_paper_id (title : String) : String := title

/-- `PaperCache._load_cache` from the persisted file (`none` when the cache
file does not exist; JSON round-tripping is the identity on the stored
mapping). -/
def load_cache (file : Option CacheMap) : CacheMap :=
  file.getD []

/-- `PaperCache.update_paper_data`: create the record if absent, then merge
each non-`None` argument into it; the caller persists the whole mapping
synchronously afterwards (`_save_cache`), which we model by using the
returned mapping as the new file content. -/
def update_paper_data (c : CacheMap) (title : String)
    (abstract field : Option String) (author_metadata : Option (List AuthorMeta))
    (entities : Option (List EntityRec)) (relations : Option (List RelationRec)) :
    CacheMap :=
  let pid := generate_paper_id title
  let c1 : CacheMap :=
    if c.any (fun p => p.1 = pid) then c else c ++ [(pid, { title := title })]
  c1.map (fun p =>
    if p.1 = pid then
      (pid,
        { p.2 with
            abstract := abstract.orElse (fun _ => p.2.abstract),
            field := field.orElse (fun _ => p.2.field),
            author_metadata := author_metadata.orElse (fun _ => p.2.author_metadata),
            entities := entities.orElse (fun _ => p.2.entities),
            relations := relations.orElse (fun _ => p.2.relations) })
    else p)

/-- `PaperCache.get_paper_data`. -/
def get_paper_data (c : CacheMap) (title : String) : Option CacheRecord :=
  (c.find? (fun p => p.1 = generate_paper_id title)).map (fun p => p.2)

/-- `PaperCache.has_author_metadata`: the record exists and its
`author_metadata` field is present and non-`None`. -/
def has_author_metadata (c : CacheMap) (title : String) : Bool :=
  match get_paper_data c title with
  | some r => r.author_metadata.isSome
  | none => false

/-- `PaperCache.has_entities`. -/
def has_entities (c : CacheMap) (title : String) : Bool :=
  match get_paper_data c title with
  | some r => r.entities.isSome
  | none => false

/-- The value `AuthorMetadataExtractor.get_authors` can produce: a parsed
`AuthorList`, a refusal/error string, or `None`. -/
inductive PyAuthorResult where
  | authorList (l : List AuthorMeta)
  | strResult (s : String)
  | noneResult
deriving DecidableEq, Repr

/-- Python truthiness of the extractor result: a pydantic model object is
always truthy (pydantic defines no `__bool__`/`__len__`), a string is truthy
iff non-empty, `None` is falsy. -/
def resultTruthy : PyAuthorResult → Bool
  | .authorList _ => true
  | .strResult s => !s.isEmpty
  | .noneResult => false

/-- `hasattr(result, 'Authors')`. -/
def hasAuthorsAttr : PyAuthorResult → Bool
  | .authorList _ => true
  | _ => false

/-- `CachedAuthorExtractor.get_authors`: on a hit (record present with a
truthy `author_metadata` dict — a dict with the `Authors` key, truthy even
for an empty author list) return the cached `AuthorList` without calling the
LLM; on a miss call the extractor (its outcome is the parameter `extRes`) and
write the result back iff `result and hasattr(result, 'Authors')`.
Returns (result, whether the external extractor was invoked, new cache). -/
def cached_get_authors (c : CacheMap) (title : String)
    (extRes : PyAuthorResult) : PyAuthorResult × Bool × CacheMap :=
  match (get_paper_data c title).bind (fun r => r.author_metadata) with
  | some l => (.authorList l, false, c)
  | none =>
    let c' :=
      if resultTruthy extRes && hasAuthorsAttr extRes then
        match extRes with
        | .authorList l => update_paper_data c title none none (some l) none none
        | _ => c
      else c
    (extRes, true, c')

/-- `CachedEntityExtractor.extract_entities_from_abstract`: a hit requires
the cached `entities` list to be truthy (non-empty); the hit path rebuilds
the relations whose both endpoint names resolve in the entity-name map and
takes `strength` with default `0.0`; the miss path calls the extractor
(outcome `extRes`) and caches iff `entities or relations` is truthy.
Returns ((entities, relations), whether the extractor was invoked, new
cache). -/
def cached_extract_entities (c : CacheMap) (p : PaperRec)
    (extRes : List EntityRec × List RelationRec) :
    (List EntityRec × List RelationRec) × Bool × CacheMap :=
  match get_paper_data c p.Title with
  | some r =>
    match r.entities with
    | some es =>
      if es.isEmpty then
        cachedEntitiesMiss c p extRes
      else
        let names := es.map (fun e => e.name)
        let rels := (r.relations.getD []).filter
          (fun rd => rd.source_name ∈ names ∧ rd.target_name ∈ names)
        ((es, rels), false, c)
    | none => cachedEntitiesMiss c p extRes
  | none => cachedEntitiesMiss c p extRes
where
  cachedEntitiesMiss (c : CacheMap) (p : PaperRec)
      (extRes : List EntityRec × List RelationRec) :
      (List EntityRec × List RelationRec) × Bool × CacheMap :=
    let c' :=
      if extRes.1.isEmpty ∧ extRes.2.isEmpty then c
      else update_paper_data c p.Title (some p.Abstract) p.field none
        (some extRes.1) (some extRes.2)
    (extRes, true, c')

/-! ## `main.PaperProcessor` processing loop -/

/-- The `(weight, author_order)` attribute pairs of the AuthorPaper edges
stored in the graph, in insertion order. -/
def apEdgeProj (b : Builder) : List (Option ℚ × Option Int) :=
  (b.gEdges.filter (fun e => e.edge_type = "AuthorPaper")).map
    (fun e => (e.weight, e.author_order))

/-- The weights carried by the `AuthorPaperEdge` objects (relation
`"writes"`) on the edge-object heap, in allocation order. -/
def apObjWeights (b : Builder) : List (Option ℚ) :=
  (b.edgeObjs.filter (fun o => o.relation = "writes")).map (fun o => o.weight)

/-- Number of AuthorPaper edges the graph holds between an author node and a
paper node. -/
def authorPaperEdgeCountBetween (b : Builder) (k : Nat) (title : String) : Nat :=
  (b.gEdges.filter (fun e =>
    e.edge_type = "AuthorPaper" ∧ e.src = .author k ∧ e.tgt = .paper title)).length

/-- Total number of AuthorPaper edges in the graph. -/
def authorPaperEdgeCount (b : Builder) : Nat :=
  (b.gEdges.filter (fun e => e.edge_type = "AuthorPaper")).length

/-- Number of Coauthor edges the graph holds (in either direction) between
two author nodes. -/
def coauthorEdgeCountBetween (b : Builder) (k1 k2 : Nat) : Nat :=
  (b.gEdges.filter (fun e =>
    e.edge_type = "Coauthor" ∧
      ((e.src = .author k1 ∧ e.tgt = .author k2) ∨
        (e.src = .author k2 ∧ e.tgt = .author k1)))).length

/-- Total number of Coauthor edges in the graph. -/
def coauthorEdgeCount (b : Builder) : Nat :=
  (b.gEdges.filter (fun e => e.edge_type = "Coauthor")).length

/-- Evidence-list integrity: no coauthored/collaboration evidence list in
the graph — neither on an edge object nor in a graph edge's attributes —
contains the same paper (by title) twice. -/
def NodupEvidence (b : Builder) : Prop :=
  (∀ o ∈ b.edgeObjs,
      (o.coauthored_paper_list.getD []).Nodup
      ∧ (o.collaboration_paper_list.getD []).Nodup)
  ∧ (∀ e ∈ b.gEdges, e.coauthored_papers.Nodup ∧ e.collaboration_papers.Nodup)

/-! ## Theorems -/

theorem dictInsert_fresh (d : List (String × ℚ)) (k : String) (v : ℚ)
    (h : ∀ p ∈ d, p.1 ≠ k) : dictInsert d k v = d ++ [(k, v)] := by
  have hfalse : (d.any (fun p => p.1 = k)) = false := by
    rw [List.any_eq_false]
    intro p hp
    simpa using h p hp
  unfold dictInsert
  rw [hfalse]
  simp

theorem foldl_dictInsert_fresh (f : AuthorMeta → ℚ) :
    ∀ (l : List AuthorMeta) (d : List (String × ℚ)),
      (∀ a ∈ l, ∀ p ∈ d, p.1 ≠ a.Name) →
      (l.map (fun a => a.Name)).Nodup →
      l.foldl (fun d a => dictInsert d a.Name (f a)) d
        = d ++ l.map (fun a => (a.Name, f a)) := by
  intro l
  induction l with
  | nil => intro d _ _; simp
  | cons a t ih =>
    intro d hfresh hnodup
    simp only [List.foldl_cons]
    rw [dictInsert_fresh d a.Name (f a) (fun p hp => hfresh a (by simp) p hp)]
    rw [ih (d ++ [(a.Name, f a)])]
    · simp
    · intro x hx p hp
      rcases List.mem_append.mp hp with hd | hone
      · exact hfresh x (by simp [hx]) p hd
      · simp only [List.mem_singleton] at hone
        subst hone
        simp only [List.map_cons, List.nodup_cons] at hnodup
        intro hcontra
        apply hnodup.1
        simp only at hcontra
        rw [hcontra]
        exact List.mem_map_of_mem (fun a => a.Name) hx
    · simp only [List.map_cons, List.nodup_cons] at hnodup
      exact hnodup.2

theorem dictGetD_map_self (f : AuthorMeta → ℚ) (v0 : ℚ) :
    ∀ (l : List AuthorMeta) (a : AuthorMeta),
      (l.map (fun a => a.Name)).Nodup → a ∈ l →
      dictGetD (l.map (fun a => (a.Name, f a))) a.Name v0 = f a := by
  intro l
  induction l with
  | nil => intro a _ h; cases h
  | cons x t ih =>
    intro a hnodup hmem
    simp only [List.map_cons, List.nodup_cons] at hnodup
    rcases List.mem_cons.mp hmem with rfl | hmem'
    · simp [dictGetD, List.find?]
    · have hne : x.Name ≠ a.Name := by
        intro hcontra
        apply hnodup.1
        rw [hcontra]
        exact List.mem_map_of_mem (fun a => a.Name) hmem'
      simp only [dictGetD, List.map_cons, List.find?]
      rw [show (decide (x.Name = a.Name)) = false by simp [hne]]
      exact ih a hnodup.2 hmem'

theorem calculate_author_credit_eq_map (authors : List AuthorMeta)
    (hnodup : (authors.map (fun a => a.Name)).Nodup) :
    calculate_author_credit authors
      = authors.map (fun a => (a.Name, credit authors a)) := by
  unfold calculate_author_credit
  rw [foldl_dictInsert_fresh (credit authors) authors [] (by simp) hnodup]
  simp

theorem credit_lookup (authors : List AuthorMeta) (a : AuthorMeta)
    (hnodup : (authors.map (fun a => a.Name)).Nodup) (hmem : a ∈ authors) :
    dictGetD (calculate_author_credit authors) a.Name 0 = credit authors a := by
  rw [calculate_author_credit_eq_map authors hnodup]
  exact dictGetD_map_self (credit authors) 0 authors a hnodup hmem
/-- C1: `calculate_author_credit` assigns each author (positions defaulting
to 1 when unspecified) the credit `(1/order_i) / Σ_k (1/order_k)` rounded to
4 decimal places, keyed by name; for positions `[1,2,3]` the three weights
sum to 1.0 within 1e-3 and are strictly decreasing, and for two unspecified
positions (both defaulting to 1) both weights equal 0.5. -/
theorem C1_harmonic_credit :
    (∀ (authors : List AuthorMeta),
        (∀ a ∈ authors, 0 < effOrder a) →
        (authors.map (fun a => a.Name)).Nodup →
        ∀ a ∈ authors,
          dictGetD (calculate_author_credit authors) a.Name 0
            = round4 (((1 : ℚ) / (effOrder a : ℚ)) / harmonicSum authors))
    ∧ (|dictGetD (calculate_author_credit
            [⟨"A", "", none, some 1⟩, ⟨"B", "", none, some 2⟩, ⟨"C", "", none, some 3⟩]) "A" 0
        + dictGetD (calculate_author_credit
            [⟨"A", "", none, some 1⟩, ⟨"B", "", none, some 2⟩, ⟨"C", "", none, some 3⟩]) "B" 0
        + dictGetD (calculate_author_credit
            [⟨"A", "", none, some 1⟩, ⟨"B", "", none, some 2⟩, ⟨"C", "", none, some 3⟩]) "C" 0
        - 1| ≤ 1/1000
      ∧ dictGetD (calculate_author_credit
            [⟨"A", "", none, some 1⟩, ⟨"B", "", none, some 2⟩, ⟨"C", "", none, some 3⟩]) "B" 0
          < dictGetD (calculate_author_credit
            [⟨"A", "", none, some 1⟩, ⟨"B", "", none, some 2⟩, ⟨"C", "", none, some 3⟩]) "A" 0
      ∧ dictGetD (calculate_author_credit
            [⟨"A", "", none, some 1⟩, ⟨"B", "", none, some 2⟩, ⟨"C", "", none, some 3⟩]) "C" 0
          < dictGetD (calculate_author_credit
            [⟨"A", "", none, some 1⟩, ⟨"B", "", none, some 2⟩, ⟨"C", "", none, some 3⟩]) "B" 0)
    ∧ (dictGetD (calculate_author_credit
          [⟨"A", "", none, none⟩, ⟨"B", "", none, none⟩]) "A" 0 = 1/2
      ∧ dictGetD (calculate_author_credit
          [⟨"A", "", none, none⟩, ⟨"B", "", none, none⟩]) "B" 0 = 1/2) := by
  refine ⟨?_, ⟨?_, ?_, ?_⟩, ?_, ?_⟩
  · intro authors _ hnodup a hmem
    rw [credit_lookup authors a hnodup hmem]
    rfl
  all_goals
    simp [calculate_author_credit, dictInsert, dictGetD, credit, harmonicSum, effOrder,
      List.foldl, List.find?, round4, roundHalfEven]
    norm_num [Int.fract]

/-- Witness for C1: the general statement applied to the `[1,2,3]` list. -/
theorem C1_harmonic_credit_witness :
    dictGetD (calculate_author_credit
        [⟨"A", "", none, some 1⟩, ⟨"B", "", none, some 2⟩, ⟨"C", "", none, some 3⟩]) "A" 0
      = round4 (((1 : ℚ) / ((effOrder ⟨"A", "", none, some 1⟩ : Int) : ℚ))
          / harmonicSum
              [⟨"A", "", none, some 1⟩, ⟨"B", "", none, some 2⟩, ⟨"C", "", none, some 3⟩]) :=
  C1_harmonic_credit.1
    [⟨"A", "", none, some 1⟩, ⟨"B", "", none, some 2⟩, ⟨"C", "", none, some 3⟩]
    (by decide) (by decide) ⟨"A", "", none, some 1⟩ (by simp)
theorem get_or_create_author_gEdges (b : Builder) (n : String) (em : Option String) :
    (get_or_create_author b n em).1.gEdges = b.gEdges := by
  unfold get_or_create_author
  cases hfind : b.authors.find? (fun e => e.name = n) <;> simp [hfind]
  split <;> simp

theorem get_or_create_author_edgeObjs (b : Builder) (n : String) (em : Option String) :
    (get_or_create_author b n em).1.edgeObjs = b.edgeObjs := by
  unfold get_or_create_author
  cases hfind : b.authors.find? (fun e => e.name = n) <;> simp [hfind]
  split <;> simp

theorem get_or_create_affiliation_gEdges (b : Builder) (n : String) :
    (get_or_create_affiliation b n).gEdges = b.gEdges := by
  unfold get_or_create_affiliation
  split <;> simp

theorem get_or_create_affiliation_edgeObjs (b : Builder) (n : String) :
    (get_or_create_affiliation b n).edgeObjs = b.edgeObjs := by
  unfold get_or_create_affiliation
  split <;> simp

theorem add_paper_gEdges (b : Builder) (p : PaperRec) :
    (add_paper b p).gEdges = b.gEdges := by
  unfold add_paper
  split <;> simp

theorem add_paper_edgeObjs (b : Builder) (p : PaperRec) :
    (add_paper b p).edgeObjs = b.edgeObjs := by
  unfold add_paper
  split <;> simp

theorem apEdgeProj_add_gedge (b : Builder) (e : GEdge) :
    apEdgeProj (add_gedge b e)
      = apEdgeProj b
        ++ (if e.edge_type = "AuthorPaper" then [(e.weight, e.author_order)] else []) := by
  unfold apEdgeProj add_gedge
  simp only [List.filter_append, List.map_append]
  congr 1
  by_cases h : e.edge_type = "AuthorPaper" <;> simp [h]

theorem apObjWeights_pushObj (b : Builder) (o : EdgeObj) :
    apObjWeights (pushObj b o).1
      = apObjWeights b ++ (if o.relation = "writes" then [o.weight] else []) := by
  unfold apObjWeights pushObj
  simp only [List.filter_append, List.map_append]
  congr 1
  by_cases h : o.relation = "writes" <;> simp [h]

theorem filter_map_of_pointwise {α β : Type} (p : α → Bool) (proj : α → β)
    (g : α → α) (hg : ∀ x, p (g x) = p x ∧ proj (g x) = proj x) :
    ∀ l : List α, ((l.map g).filter p).map proj = (l.filter p).map proj := by
  intro l
  induction l with
  | nil => simp
  | cons x t ih =>
    simp only [List.map_cons, List.filter_cons]
    rw [(hg x).1]
    cases hp : p x <;> simp [ih, (hg x).2]

theorem modifyObj_filter_map {γ : Type} (p : EdgeObj → Bool) (proj : EdgeObj → γ)
    (f : EdgeObj → EdgeObj) (hf : ∀ o, p (f o) = p o ∧ proj (f o) = proj o) :
    ∀ (l : List EdgeObj) (i : Nat),
      ((modifyObj l i f).filter p).map proj = (l.filter p).map proj := by
  intro l
  induction l with
  | nil => intro i; simp [modifyObj]
  | cons o t ih =>
    intro i
    cases i with
    | zero =>
      simp only [modifyObj, List.filter_cons]
      rw [(hf o).1]
      cases hp : p o <;> simp [(hf o).2]
    | succ j =>
      simp only [modifyObj, List.filter_cons]
      cases hp : p o <;> simp [ih]
theorem authorStep_proj (weights : List (String × ℚ)) (pTitle : String)
    (st : AuthorLoopState) (a : AuthorMeta) :
    apEdgeProj (authorStep weights pTitle st a).b
        = apEdgeProj st.b ++ [(some 0, some (effOrder a))]
    ∧ apObjWeights (authorStep weights pTitle st a).b
        = apObjWeights st.b ++ [some (dictGetD weights a.Name 0)] := by
  rcases hG : get_or_create_author st.b a.Name a.Email with ⟨b1, k⟩
  have h1 : b1.gEdges = st.b.gEdges := by
    have := get_or_create_author_gEdges st.b a.Name a.Email
    rw [hG] at this; exact this
  have h2 : b1.edgeObjs = st.b.edgeObjs := by
    have := get_or_create_author_edgeObjs st.b a.Name a.Email
    rw [hG] at this; exact this
  by_cases hAff : a.Affiliation.isEmpty <;>
    constructor <;>
    simp [authorStep, hG, hAff, apEdgeProj, apObjWeights, pushObj, add_gedge, h1, h2,
      get_or_create_affiliation, List.filter_append, apply_ite
        (fun (x : Builder) => List.map (fun (e : GEdge) => (e.weight, e.author_order))
          (List.filter (fun e => decide (e.edge_type = "AuthorPaper")) x.gEdges)),
      apply_ite
        (fun (x : Builder) => List.map (fun (o : EdgeObj) => o.weight)
          (List.filter (fun o => decide (o.relation = "writes")) x.edgeObjs)),
      apply_ite (fun (x : Builder) => x.gEdges),
      apply_ite (fun (x : Builder) => x.edgeObjs)] ;
    (try (split <;> simp [List.filter_append]))


theorem authorLoop_proj (weights : List (String × ℚ)) (pTitle : String) :
    ∀ (al : List AuthorMeta) (st : AuthorLoopState),
      apEdgeProj (al.foldl (authorStep weights pTitle) st).b
          = apEdgeProj st.b ++ al.map (fun a => (some 0, some (effOrder a)))
      ∧ apObjWeights (al.foldl (authorStep weights pTitle) st).b
          = apObjWeights st.b ++ al.map (fun a => some (dictGetD weights a.Name 0)) := by
  intro al
  induction al with
  | nil => intro st; simp
  | cons a t ih =>
    intro st
    simp only [List.foldl_cons, List.map_cons]
    obtain ⟨e1, e2⟩ := ih (authorStep weights pTitle st a)
    obtain ⟨s1, s2⟩ := authorStep_proj weights pTitle st a
    rw [e1, s1, e2, s2]
    simp

theorem add_coauthored_paper_preserves (t : String) (o : EdgeObj) :
    (add_coauthored_paper o t).relation = o.relation
    ∧ (add_coauthored_paper o t).weight = o.weight := by
  unfold add_coauthored_paper
  by_cases h : t ∈ o.coauthored_paper_list.getD [] <;> simp [h]

theorem add_collaboration_paper_preserves (t : String) (o : EdgeObj) :
    (add_collaboration_paper o t).relation = o.relation
    ∧ (add_collaboration_paper o t).weight = o.weight := by
  unfold add_collaboration_paper
  by_cases h : t ∈ o.collaboration_paper_list.getD [] <;> simp [h]

theorem update_edge_apEdgeProj (b : Builder) (s t : NodeId) (k : Nat)
    (upd : GEdge → GEdge)
    (h : ∀ e, (upd e).edge_type = e.edge_type ∧ (upd e).weight = e.weight
        ∧ (upd e).author_order = e.author_order) :
    apEdgeProj (update_edge_in_graph b s t k upd) = apEdgeProj b := by
  unfold apEdgeProj update_edge_in_graph
  refine filter_map_of_pointwise _ _ _ (fun e => ?_) b.gEdges
  by_cases hc : e.src = s ∧ e.tgt = t ∧ e.key = k <;>
    simp [hc, (h e).1, (h e).2.1, (h e).2.2]

theorem update_edge_apObjWeights (b : Builder) (s t : NodeId) (k : Nat)
    (upd : GEdge → GEdge) :
    apObjWeights (update_edge_in_graph b s t k upd) = apObjWeights b := by
  unfold apObjWeights update_edge_in_graph
  rfl

theorem coauthorStep_proj (pTitle : String) (b : Builder) (pr : Nat × Nat) :
    apEdgeProj (coauthorStep pTitle b pr) = apEdgeProj b
    ∧ apObjWeights (coauthorStep pTitle b pr) = apObjWeights b := by
  unfold coauthorStep
  simp only [pushObj]
  split
  · constructor
    · rw [update_edge_apEdgeProj _ _ _ _ _ (fun e => by simp)]
      simp [apEdgeProj, List.filter_append]
    · rw [update_edge_apObjWeights]
      show (List.map _ (List.filter _ (modifyObj _ _ _))) = _
      rw [modifyObj_filter_map _ _ _ (fun o => by
        simp [(add_coauthored_paper_preserves pTitle o).1,
          (add_coauthored_paper_preserves pTitle o).2])]
      simp [apObjWeights, List.filter_append]
  · constructor <;> simp [apEdgeProj, apObjWeights, add_gedge, List.filter_append]

theorem paperAffilStep_proj (pTitle : String) (b : Builder) (n : String) :
    apEdgeProj (paperAffilStep pTitle b n) = apEdgeProj b
    ∧ apObjWeights (paperAffilStep pTitle b n) = apObjWeights b := by
  unfold paperAffilStep
  simp only [pushObj]
  constructor <;> simp [apEdgeProj, apObjWeights, add_gedge, List.filter_append]

theorem collabStep_proj (pTitle : String) (b : Builder) (pr : String × String) :
    apEdgeProj (collabStep pTitle b pr) = apEdgeProj b
    ∧ apObjWeights (collabStep pTitle b pr) = apObjWeights b := by
  unfold collabStep
  simp only [pushObj]
  split
  · constructor
    · rw [update_edge_apEdgeProj _ _ _ _ _ (fun e => by simp)]
      simp [apEdgeProj, List.filter_append]
    · rw [update_edge_apObjWeights]
      show (List.map _ (List.filter _ (modifyObj _ _ _))) = _
      rw [modifyObj_filter_map _ _ _ (fun o => by
        simp [(add_collaboration_paper_preserves pTitle o).1,
          (add_collaboration_paper_preserves pTitle o).2])]
      simp [apObjWeights, List.filter_append]
  · constructor <;> simp [apEdgeProj, apObjWeights, add_gedge, List.filter_append]

theorem foldl_proj_inv {α : Type} (f : Builder → α → Builder)
    (h : ∀ b x, apEdgeProj (f b x) = apEdgeProj b ∧ apObjWeights (f b x) = apObjWeights b) :
    ∀ (l : List α) (b : Builder),
      apEdgeProj (l.foldl f b) = apEdgeProj b
      ∧ apObjWeights (l.foldl f b) = apObjWeights b := by
  intro l
  induction l with
  | nil => intro b; simp
  | cons x t ih =>
    intro b
    simp only [List.foldl_cons]
    obtain ⟨i1, i2⟩ := ih (f b x)
    rw [i1, i2, (h b x).1, (h b x).2]
    simp

theorem process_author_list_and_paper_proj (b : Builder) (al : List AuthorMeta)
    (p : PaperRec) :
    apEdgeProj (process_author_list_and_paper b al p)
        = apEdgeProj b ++ al.map (fun a => (some 0, some (effOrder a)))
    ∧ apObjWeights (process_author_list_and_paper b al p)
        = apObjWeights b
          ++ al.map (fun a => some (dictGetD (calculate_author_credit al) a.Name 0)) := by
  unfold process_author_list_and_paper
  obtain ⟨l1, l2⟩ := authorLoop_proj (calculate_author_credit al) p.Title al
    ⟨add_paper b p, [], []⟩
  obtain ⟨c1, c2⟩ := foldl_proj_inv (coauthorStep p.Title)
    (coauthorStep_proj p.Title)
    (ordPairs (al.foldl (authorStep (calculate_author_credit al) p.Title)
      ⟨add_paper b p, [], []⟩).authorKeys)
    (al.foldl (authorStep (calculate_author_credit al) p.Title)
      ⟨add_paper b p, [], []⟩).b
  obtain ⟨pa1, pa2⟩ := foldl_proj_inv (paperAffilStep p.Title)
    (paperAffilStep_proj p.Title)
    (al.foldl (authorStep (calculate_author_credit al) p.Title)
      ⟨add_paper b p, [], []⟩).affSet
    ((ordPairs (al.foldl (authorStep (calculate_author_credit al) p.Title)
      ⟨add_paper b p, [], []⟩).authorKeys).foldl (coauthorStep p.Title)
      (al.foldl (authorStep (calculate_author_credit al) p.Title)
        ⟨add_paper b p, [], []⟩).b)
  obtain ⟨cl1, cl2⟩ := foldl_proj_inv (collabStep p.Title)
    (collabStep_proj p.Title)
    (ordPairs (al.foldl (authorStep (calculate_author_credit al) p.Title)
      ⟨add_paper b p, [], []⟩).affSet)
    _
  constructor
  · rw [cl1, pa1, c1, l1]
    have : apEdgeProj (add_paper b p) = apEdgeProj b := by
      unfold apEdgeProj
      rw [add_paper_gEdges]
    rw [this]
  · rw [cl2, pa2, c2, l2]
    have : apObjWeights (add_paper b p) = apObjWeights b := by
      unfold apObjWeights
      rw [add_paper_edgeObjs]
    rw [this]

/-- C2 (amended): for every author list with positive effective positions
(the domain on which `calculate_author_credit` does not raise a
`ZeroDivisionError`), the graph is a multigraph and
`process_author_list_and_paper` adds a fresh AuthorPaper edge for every
author on every call, so re-ingesting the same paper with the same author
appends a second parallel edge instead of overwriting the first. -/
theorem C2_author_paper_edges_append (b : Builder) (al : List AuthorMeta)
    (p : PaperRec) (_horders : ∀ a ∈ al, 0 < effOrder a) :
    authorPaperEdgeCount (process_author_list_and_paper b al p)
      = authorPaperEdgeCount b + al.length := by
  have h := (process_author_list_and_paper_proj b al p).1
  have len : ∀ b', authorPaperEdgeCount b' = (apEdgeProj b').length := by
    intro b'
    unfold authorPaperEdgeCount apEdgeProj
    simp
  rw [len, len, h]
  simp

/-- Witness for C2: re-ingesting a one-author paper adds one more
AuthorPaper edge each time. -/
theorem C2_author_paper_edges_append_witness :
    authorPaperEdgeCount
        (process_author_list_and_paper
          (process_author_list_and_paper emptyBuilder
            [⟨"A", "", none, some 1⟩] ⟨"P", "abs", none⟩)
          [⟨"A", "", none, some 1⟩] ⟨"P", "abs", none⟩)
      = authorPaperEdgeCount
          (process_author_list_and_paper emptyBuilder
            [⟨"A", "", none, some 1⟩] ⟨"P", "abs", none⟩)
        + 1 :=
  C2_author_paper_edges_append
    (process_author_list_and_paper emptyBuilder
      [⟨"A", "", none, some 1⟩] ⟨"P", "abs", none⟩)
    [⟨"A", "", none, some 1⟩] ⟨"P", "abs", none⟩ (by decide)

/-- C2 counterexample: ingesting the same single-author paper twice leaves
two AuthorPaper edges between that author and that paper, refuting "at most
one edge per (author, paper) pair". -/
theorem C2_counterexample :
    ¬ (authorPaperEdgeCountBetween
        (process_author_list_and_paper
          (process_author_list_and_paper emptyBuilder
            [⟨"A", "", none, some 1⟩] ⟨"P", "abs", none⟩)
          [⟨"A", "", none, some 1⟩] ⟨"P", "abs", none⟩) 0 "P" ≤ 1) := by
  decide

/-- C3 counterexample: for a single-author paper the computed harmonic credit
is 1, yet the AuthorPaper edge stored in the graph carries the hard-coded
attribute `weight = 0.0` — a zero value, not the credit. -/
theorem C3_counterexample :
    apEdgeProj (process_author_list_and_paper emptyBuilder
        [⟨"A", "", none, some 1⟩] ⟨"P", "abs", none⟩)
      = [(some 0, some 1)]
    ∧ dictGetD (calculate_author_credit [⟨"A", "", none, some 1⟩]) "A" 0 = 1
    ∧ (0 : ℚ) ≠ 1 := by
  refine ⟨?_, ?_, by norm_num⟩
  · have h := (process_author_list_and_paper_proj emptyBuilder
      [⟨"A", "", none, some 1⟩] ⟨"P", "abs", none⟩).1
    rw [h]
    simp [apEdgeProj, emptyBuilder, effOrder]
  · simp [calculate_author_credit, dictInsert, dictGetD, credit, harmonicSum, effOrder,
      List.foldl, List.find?, round4, roundHalfEven]

/-- C3 (amended): ingesting an author list with pairwise distinct names and
positive effective positions (the domain on which `calculate_author_credit`
does not raise a `ZeroDivisionError`) appends, for each author in order, an
`AuthorPaperEdge` object whose weight equals that author's harmonic credit,
while the `weight` attribute written into the graph's AuthorPaper edge data
is the hard-coded 0.0 (the credit is carried only by the edge object). -/
theorem C3_object_weight_vs_graph_weight (b : Builder) (al : List AuthorMeta)
    (p : PaperRec) (_horders : ∀ a ∈ al, 0 < effOrder a)
    (hnodup : (al.map (fun a => a.Name)).Nodup) :
    apObjWeights (process_author_list_and_paper b al p)
        = apObjWeights b ++ al.map (fun a => some (credit al a))
    ∧ apEdgeProj (process_author_list_and_paper b al p)
        = apEdgeProj b ++ al.map (fun a => (some 0, some (effOrder a))) := by
  obtain ⟨h1, h2⟩ := process_author_list_and_paper_proj b al p
  refine ⟨?_, h1⟩
  rw [h2]
  congr 1
  apply List.map_congr_left
  intro a hmem
  rw [credit_lookup al a hnodup hmem]

/-- Witness for C3: the amended statement applied to a concrete two-author
paper. -/
theorem C3_object_weight_vs_graph_weight_witness :
    apObjWeights (process_author_list_and_paper emptyBuilder
        [⟨"A", "", none, some 1⟩, ⟨"B", "", none, some 2⟩] ⟨"P", "abs", none⟩)
      = apObjWeights emptyBuilder
        ++ [⟨"A", "", none, some 1⟩, ⟨"B", "", none, some 2⟩].map
            (fun a => some (credit [⟨"A", "", none, some 1⟩, ⟨"B", "", none, some 2⟩] a)) :=
  (C3_object_weight_vs_graph_weight emptyBuilder
    [⟨"A", "", none, some 1⟩, ⟨"B", "", none, some 2⟩] ⟨"P", "abs", none⟩
    (by decide) (by decide)).1

set_option maxHeartbeats 1000000 in
/-- C4: for two distinct authors, ingesting a paper pairing them as (A,B)
and then another pairing them as (B,A) leaves exactly one Coauthor edge in
the graph: the pair is canonicalised to a single directed edge regardless of
extraction order. -/
theorem C4_coauthor_canonical (a b : String) (hab : a ≠ b)
    (t1 t2 abs1 abs2 : String) :
    coauthorEdgeCount
      (process_author_list_and_paper
        (process_author_list_and_paper emptyBuilder
          [⟨a, "", none, none⟩, ⟨b, "", none, none⟩] ⟨t1, abs1, none⟩)
        [⟨b, "", none, none⟩, ⟨a, "", none, none⟩] ⟨t2, abs2, none⟩) = 1 := by
  have hba : b ≠ a := hab.symm
  simp only [process_author_list_and_paper]
  generalize calculate_author_credit [⟨b, "", none, none⟩, ⟨a, "", none, none⟩] = W2
  generalize calculate_author_credit [⟨a, "", none, none⟩, ⟨b, "", none, none⟩] = W1
  rcases eq_or_ne t2 t1 with ht | ht
  · subst ht
    simp [coauthorEdgeCount, add_paper, emptyBuilder, show "".isEmpty = true from rfl,
      authorStep, get_or_create_author, get_or_create_affiliation, effOrder,
      pushObj, add_gedge, ordPairs, coauthorStep, find_existing_edge, modifyObj,
      add_coauthored_paper, update_edge_in_graph, strTruthy, paperAffilStep, collabStep,
      hab, hba]
  · simp [coauthorEdgeCount, add_paper, emptyBuilder, show "".isEmpty = true from rfl,
      authorStep, get_or_create_author, get_or_create_affiliation, effOrder,
      pushObj, add_gedge, ordPairs, coauthorStep, find_existing_edge, modifyObj,
      add_coauthored_paper, update_edge_in_graph, strTruthy, paperAffilStep, collabStep,
      hab, hba, ht, Ne.symm ht]

/-- Witness for C4 at concrete names and titles. -/
theorem C4_coauthor_canonical_witness :
    coauthorEdgeCount
      (process_author_list_and_paper
        (process_author_list_and_paper emptyBuilder
          [⟨"Alice", "", none, none⟩, ⟨"Bob", "", none, none⟩] ⟨"P1", "x", none⟩)
        [⟨"Bob", "", none, none⟩, ⟨"Alice", "", none, none⟩] ⟨"P2", "y", none⟩) = 1 :=
  C4_coauthor_canonical "Alice" "Bob" (by decide) "P1" "P2" "x" "y"

theorem modifyObj_mem (f : EdgeObj → EdgeObj) :
    ∀ (l : List EdgeObj) (i : Nat) (o : EdgeObj),
      o ∈ modifyObj l i f → o ∈ l ∨ ∃ x ∈ l, o = f x := by
  intro l
  induction l with
  | nil => intro i o h; simp [modifyObj] at h
  | cons x t ih =>
    intro i o h
    cases i with
    | zero =>
      rcases List.mem_cons.mp h with heq | hmem
      · exact Or.inr ⟨x, by simp, heq⟩
      · exact Or.inl (List.mem_cons_of_mem x hmem)
    | succ j =>
      rcases List.mem_cons.mp h with heq | hmem
      · exact Or.inl (by simp [heq])
      · rcases ih j o hmem with h1 | ⟨y, hy, heq⟩
        · exact Or.inl (List.mem_cons_of_mem x h1)
        · exact Or.inr ⟨y, List.mem_cons_of_mem x hy, heq⟩

theorem add_coauthored_paper_nodup (t : String) (o : EdgeObj)
    (h : (o.coauthored_paper_list.getD []).Nodup) :
    ((add_coauthored_paper o t).coauthored_paper_list.getD []).Nodup := by
  unfold add_coauthored_paper
  by_cases hm : t ∈ o.coauthored_paper_list.getD [] <;> simp [hm, h, List.nodup_append]

theorem add_coauthored_paper_collab (t : String) (o : EdgeObj) :
    (add_coauthored_paper o t).collaboration_paper_list = o.collaboration_paper_list := by
  unfold add_coauthored_paper
  by_cases hm : t ∈ o.coauthored_paper_list.getD [] <;> simp [hm]

theorem add_collaboration_paper_nodup (t : String) (o : EdgeObj)
    (h : (o.collaboration_paper_list.getD []).Nodup) :
    ((add_collaboration_paper o t).collaboration_paper_list.getD []).Nodup := by
  unfold add_collaboration_paper
  by_cases hm : t ∈ o.collaboration_paper_list.getD [] <;> simp [hm, h, List.nodup_append]

theorem add_collaboration_paper_coauth (t : String) (o : EdgeObj) :
    (add_collaboration_paper o t).coauthored_paper_list = o.coauthored_paper_list := by
  unfold add_collaboration_paper
  by_cases hm : t ∈ o.collaboration_paper_list.getD [] <;> simp [hm]

theorem nodupEvidence_of_shape (b b' : Builder) (lo : List EdgeObj) (le : List GEdge)
    (eo : b'.edgeObjs = b.edgeObjs ++ lo) (eg : b'.gEdges = b.gEdges ++ le)
    (ho : ∀ o ∈ lo, (o.coauthored_paper_list.getD []).Nodup
        ∧ (o.collaboration_paper_list.getD []).Nodup)
    (he : ∀ e ∈ le, e.coauthored_papers.Nodup ∧ e.collaboration_papers.Nodup)
    (h : NodupEvidence b) : NodupEvidence b' := by
  obtain ⟨hO, hE⟩ := h
  constructor
  · intro o hmem
    rw [eo] at hmem
    rcases List.mem_append.mp hmem with h1 | h2
    exacts [hO o h1, ho o h2]
  · intro e hmem
    rw [eg] at hmem
    rcases List.mem_append.mp hmem with h1 | h2
    exacts [hE e h1, he e h2]

theorem authorStep_nodupEvidence (weights : List (String × ℚ)) (pTitle : String)
    (st : AuthorLoopState) (a : AuthorMeta) (h : NodupEvidence st.b) :
    NodupEvidence (authorStep weights pTitle st a).b := by
  rcases hG : get_or_create_author st.b a.Name a.Email with ⟨b1, k⟩
  have h1 : b1.gEdges = st.b.gEdges := by
    have := get_or_create_author_gEdges st.b a.Name a.Email
    rw [hG] at this; exact this
  have h2 : b1.edgeObjs = st.b.edgeObjs := by
    have := get_or_create_author_edgeObjs st.b a.Name a.Email
    rw [hG] at this; exact this
  obtain ⟨hO, hE⟩ := h
  constructor <;> intro x hx <;>
    by_cases hAff : a.Affiliation.isEmpty <;>
    simp only [authorStep, hG, hAff, Bool.false_eq_true, if_true, if_false,
      pushObj, add_gedge, get_or_create_affiliation_gEdges,
      get_or_create_affiliation_edgeObjs, h1, h2,
      apply_ite (fun (y : Builder) => y.gEdges),
      apply_ite (fun (y : Builder) => y.edgeObjs), ite_self] at hx
  all_goals try split at hx
  all_goals
    simp only [List.mem_append, List.mem_cons, List.mem_singleton,
      List.not_mem_nil, or_false] at hx
  all_goals casesm* _ ∨ _
  all_goals
    first
      | exact hO x hx
      | exact hE x hx
      | (rename_i hxx
         first
           | exact hO x hxx
           | exact hE x hxx
           | (subst hxx; simp))

theorem getD_mem_or {α : Type} (l : List α) (i : Nat) (d : α) :
    l.getD i d ∈ l ∨ l.getD i d = d := by
  induction l generalizing i with
  | nil => right; rfl
  | cons x t ih =>
    cases i with
    | zero => left; simp [List.getD]
    | succ j =>
      rcases ih j with h1 | h2
      · left
        simp only [List.getD] at h1 ⊢
        exact List.mem_cons_of_mem x h1
      · right
        simpa [List.getD] using h2

theorem coauthorStep_nodupEvidence (pTitle : String) (b : Builder) (pr : Nat × Nat)
    (h : NodupEvidence b) : NodupEvidence (coauthorStep pTitle b pr) := by
  obtain ⟨hO, hE⟩ := h
  unfold coauthorStep
  simp only [pushObj]
  generalize (if pr.1 > pr.2 then pr.2 else pr.1) = a1
  generalize (if pr.1 > pr.2 then pr.1 else pr.2) = a2
  have hOplus : ∀ o ∈ b.edgeObjs ++
      [{ source := NodeId.author a1, target := NodeId.author a2,
          relation := "coauthor_of", weight := some 0,
          coauthored_paper_list := some [pTitle] } ],
      (o.coauthored_paper_list.getD []).Nodup
      ∧ (o.collaboration_paper_list.getD []).Nodup := by
    intro o hmem
    rcases List.mem_append.mp hmem with h1 | h2
    · exact hO o h1
    · simp only [List.mem_singleton] at h2
      subst h2
      simp
  split
  · rename_i objRef key hF
    have hMod : ∀ o ∈ modifyObj (b.edgeObjs ++
        [{ source := NodeId.author a1, target := NodeId.author a2,
            relation := "coauthor_of", weight := some 0,
            coauthored_paper_list := some [pTitle] } ]) objRef
          (fun o => add_coauthored_paper o pTitle),
        (o.coauthored_paper_list.getD []).Nodup
        ∧ (o.collaboration_paper_list.getD []).Nodup := by
      intro o hmem
      rcases modifyObj_mem _ _ _ _ hmem with h1 | ⟨y, hy, heq⟩
      · exact hOplus o h1
      · subst heq
        exact ⟨add_coauthored_paper_nodup pTitle y (hOplus y hy).1,
          by rw [add_coauthored_paper_collab]; exact (hOplus y hy).2⟩
    constructor
    · intro o hmem
      exact hMod o hmem
    · intro e hmem
      simp only [update_edge_in_graph] at hmem
      rcases List.mem_map.mp hmem with ⟨e0, he0, heq⟩
      subst heq
      by_cases hc : e0.src = NodeId.author a1 ∧ e0.tgt = NodeId.author a2 ∧ e0.key = key
      · rw [if_pos hc]
        refine ⟨?_, (hE e0 he0).2⟩
        rcases getD_mem_or (modifyObj (b.edgeObjs ++
            [{ source := NodeId.author a1, target := NodeId.author a2,
                relation := "coauthor_of", weight := some 0,
                coauthored_paper_list := some [pTitle] } ]) objRef
              (fun o => add_coauthored_paper o pTitle)) objRef
            { source := NodeId.author a1, target := NodeId.author a2,
              relation := "coauthor_of", weight := some 0,
              coauthored_paper_list := some [pTitle] } with hm | hd
        · exact (hMod _ hm).1
        · rw [hd]
          simp
      · rw [if_neg hc]
        exact hE e0 he0
  · constructor
    · intro o hmem
      exact hOplus o hmem
    · intro e hmem
      simp only [add_gedge] at hmem
      rcases List.mem_append.mp hmem with h1 | h2
      · exact hE e h1
      · simp only [List.mem_singleton] at h2
        subst h2
        simp

theorem collabStep_nodupEvidence (pTitle : String) (b : Builder) (pr : String × String)
    (h : NodupEvidence b) : NodupEvidence (collabStep pTitle b pr) := by
  obtain ⟨hO, hE⟩ := h
  unfold collabStep
  simp only [pushObj]
  generalize (if strLt pr.2 pr.1 then pr.2 else pr.1) = n1
  generalize (if strLt pr.2 pr.1 then pr.1 else pr.2) = n2
  have hOplus : ∀ o ∈ b.edgeObjs ++
      [{ source := NodeId.affil n1, target := NodeId.affil n2,
          relation := "collaborates_with", weight := some 0,
          collaboration_paper_list := some [pTitle] } ],
      (o.coauthored_paper_list.getD []).Nodup
      ∧ (o.collaboration_paper_list.getD []).Nodup := by
    intro o hmem
    rcases List.mem_append.mp hmem with h1 | h2
    · exact hO o h1
    · simp only [List.mem_singleton] at h2
      subst h2
      simp
  split
  · rename_i objRef key hF
    have hMod : ∀ o ∈ modifyObj (b.edgeObjs ++
        [{ source := NodeId.affil n1, target := NodeId.affil n2,
            relation := "collaborates_with", weight := some 0,
            collaboration_paper_list := some [pTitle] } ]) objRef
          (fun o => add_collaboration_paper o pTitle),
        (o.coauthored_paper_list.getD []).Nodup
        ∧ (o.collaboration_paper_list.getD []).Nodup := by
      intro o hmem
      rcases modifyObj_mem _ _ _ _ hmem with h1 | ⟨y, hy, heq⟩
      · exact hOplus o h1
      · subst heq
        exact ⟨by rw [add_collaboration_paper_coauth]; exact (hOplus y hy).1,
          add_collaboration_paper_nodup pTitle y (hOplus y hy).2⟩
    constructor
    · intro o hmem
      exact hMod o hmem
    · intro e hmem
      simp only [update_edge_in_graph] at hmem
      rcases List.mem_map.mp hmem with ⟨e0, he0, heq⟩
      subst heq
      by_cases hc : e0.src = NodeId.affil n1 ∧ e0.tgt = NodeId.affil n2 ∧ e0.key = key
      · rw [if_pos hc]
        refine ⟨(hE e0 he0).1, ?_⟩
        rcases getD_mem_or (modifyObj (b.edgeObjs ++
            [{ source := NodeId.affil n1, target := NodeId.affil n2,
                relation := "collaborates_with", weight := some 0,
                collaboration_paper_list := some [pTitle] } ]) objRef
              (fun o => add_collaboration_paper o pTitle)) objRef
            { source := NodeId.affil n1, target := NodeId.affil n2,
              relation := "collaborates_with", weight := some 0,
              collaboration_paper_list := some [pTitle] } with hm | hd
        · exact (hMod _ hm).2
        · rw [hd]
          simp
      · rw [if_neg hc]
        exact hE e0 he0
  · constructor
    · intro o hmem
      exact hOplus o hmem
    · intro e hmem
      simp only [add_gedge] at hmem
      rcases List.mem_append.mp hmem with h1 | h2
      · exact hE e h1
      · simp only [List.mem_singleton] at h2
        subst h2
        simp

theorem paperAffilStep_nodupEvidence (pTitle : String) (b : Builder) (n : String)
    (h : NodupEvidence b) : NodupEvidence (paperAffilStep pTitle b n) := by
  obtain ⟨hO, hE⟩ := h
  unfold paperAffilStep
  simp only [pushObj]
  constructor
  · intro o hmem
    simp only [add_gedge] at hmem
    rcases List.mem_append.mp hmem with h1 | h2
    · exact hO o h1
    · simp only [List.mem_singleton] at h2
      subst h2
      simp
  · intro e hmem
    simp only [add_gedge] at hmem
    rcases List.mem_append.mp hmem with h1 | h2
    · exact hE e h1
    · simp only [List.mem_singleton] at h2
      subst h2
      simp

theorem foldl_nodupEvidence {α : Type} (f : Builder → α → Builder)
    (hf : ∀ b x, NodupEvidence b → NodupEvidence (f b x)) :
    ∀ (l : List α) (b : Builder), NodupEvidence b → NodupEvidence (l.foldl f b) := by
  intro l
  induction l with
  | nil => intro b h; exact h
  | cons x t ih =>
    intro b h
    exact ih (f b x) (hf b x h)

theorem add_paper_nodupEvidence (b : Builder) (p : PaperRec) (h : NodupEvidence b) :
    NodupEvidence (add_paper b p) := by
  obtain ⟨hO, hE⟩ := h
  unfold add_paper
  split <;> exact ⟨hO, hE⟩

theorem process_nodupEvidence (b : Builder) (al : List AuthorMeta) (p : PaperRec)
    (h : NodupEvidence b) :
    NodupEvidence (process_author_list_and_paper b al p) := by
  unfold process_author_list_and_paper
  apply foldl_nodupEvidence (collabStep p.Title) (collabStep_nodupEvidence p.Title)
  apply foldl_nodupEvidence (paperAffilStep p.Title) (paperAffilStep_nodupEvidence p.Title)
  apply foldl_nodupEvidence (coauthorStep p.Title) (coauthorStep_nodupEvidence p.Title)
  have hauth : ∀ (st : AuthorLoopState) (l : List AuthorMeta), NodupEvidence st.b →
      NodupEvidence (l.foldl (authorStep (calculate_author_credit al) p.Title) st).b := by
    intro st l
    induction l generalizing st with
    | nil => intro hst; exact hst
    | cons x t ih =>
      intro hst
      exact ih _ (authorStep_nodupEvidence (calculate_author_credit al) p.Title st x hst)
  exact hauth ⟨add_paper b p, [], []⟩ al (add_paper_nodupEvidence b p h)

theorem emptyBuilder_nodupEvidence : NodupEvidence emptyBuilder := by
  constructor <;> intro x hx <;> simp [emptyBuilder] at hx

/-- C5: evidence lists never hold the same paper twice.
`add_coauthored_paper` / `add_collaboration_paper` leave the list unchanged
when the paper (by title) is already present and append it otherwise; every
builder reachable by ingestion keeps all evidence lists duplicate-free; and
concretely, ingesting the same two-author two-affiliation paper twice leaves
the Coauthor and AffiliationCollaboration evidence lists holding that paper
exactly once. -/
theorem C5_evidence_no_duplicates :
    (∀ (o : EdgeObj) (t : String),
      (t ∈ o.coauthored_paper_list.getD [] →
        (add_coauthored_paper o t).coauthored_paper_list.getD []
          = o.coauthored_paper_list.getD [])
      ∧ (t ∉ o.coauthored_paper_list.getD [] →
        (add_coauthored_paper o t).coauthored_paper_list.getD []
          = o.coauthored_paper_list.getD [] ++ [t]))
    ∧ (∀ (o : EdgeObj) (t : String),
      (t ∈ o.collaboration_paper_list.getD [] →
        (add_collaboration_paper o t).collaboration_paper_list.getD []
          = o.collaboration_paper_list.getD [])
      ∧ (t ∉ o.collaboration_paper_list.getD [] →
        (add_collaboration_paper o t).collaboration_paper_list.getD []
          = o.collaboration_paper_list.getD [] ++ [t]))
    ∧ (∀ (b : Builder) (al : List AuthorMeta) (p : PaperRec),
        NodupEvidence b → NodupEvidence (process_author_list_and_paper b al p))
    ∧ NodupEvidence emptyBuilder
    ∧ ((process_author_list_and_paper
          (process_author_list_and_paper emptyBuilder
            [⟨"A", "X", none, none⟩, ⟨"B", "Y", none, none⟩] ⟨"P", "abs", none⟩)
          [⟨"A", "X", none, none⟩, ⟨"B", "Y", none, none⟩]
          ⟨"P", "abs", none⟩).gEdges.filter
            (fun e => e.edge_type = "Coauthor")).map (fun e => e.coauthored_papers)
        = [["P"]]
    ∧ ((process_author_list_and_paper
          (process_author_list_and_paper emptyBuilder
            [⟨"A", "X", none, none⟩, ⟨"B", "Y", none, none⟩] ⟨"P", "abs", none⟩)
          [⟨"A", "X", none, none⟩, ⟨"B", "Y", none, none⟩]
          ⟨"P", "abs", none⟩).gEdges.filter
            (fun e => e.edge_type = "AffiliationCollaboration")).map
              (fun e => e.collaboration_papers)
        = [["P"]] := by
  refine ⟨?_, ?_, process_nodupEvidence, emptyBuilder_nodupEvidence, ?_, ?_⟩
  · intro o t
    constructor <;> intro hm <;> simp [add_coauthored_paper, hm]
  · intro o t
    constructor <;> intro hm <;> simp [add_collaboration_paper, hm]
  · decide
  · decide

/-- Witness for C5: the preservation statement applied to a concrete
ingestion from the empty builder. -/
theorem C5_evidence_no_duplicates_witness :
    NodupEvidence (process_author_list_and_paper emptyBuilder
      [⟨"A", "X", none, none⟩, ⟨"B", "Y", none, none⟩] ⟨"P", "abs", none⟩)
    ∧ ("P" ∉ ([] : List String)) ∧
      (add_coauthored_paper
          { source := NodeId.author 0, target := NodeId.author 1,
            relation := "coauthor_of" } "P").coauthored_paper_list.getD []
        = [] ++ ["P"] := by
  refine ⟨C5_evidence_no_duplicates.2.2.1 emptyBuilder _ _ ?_, ?_, ?_⟩
  · exact C5_evidence_no_duplicates.2.2.2.1
  · decide
  · exact (C5_evidence_no_duplicates.1
      { source := NodeId.author 0, target := NodeId.author 1,
        relation := "coauthor_of" } "P").2 (by decide)

theorem update_paper_data_cons_ne (p : String × CacheRecord) (t : CacheMap)
    (title : String) (ab fd : Option String) (am : Option (List AuthorMeta))
    (es : Option (List EntityRec)) (rs : Option (List RelationRec))
    (hp : p.1 ≠ title) :
    update_paper_data (p :: t) title ab fd am es rs
      = p :: update_paper_data t title ab fd am es rs := by
  unfold update_paper_data
  by_cases ht : (t.any fun q => q.1 = title) = true <;>
    simp [generate_paper_id, hp, ht]

theorem get_paper_data_update_am (title : String) (m : List AuthorMeta) :
    ∀ c : CacheMap,
      ∃ r, get_paper_data (update_paper_data c title none none (some m) none none) title
          = some r
        ∧ r.author_metadata = some m := by
  intro c
  induction c with
  | nil =>
    refine ⟨⟨title, none, none, some m, none, none⟩, ?_, rfl⟩
    simp [update_paper_data, get_paper_data, generate_paper_id, Option.orElse]
  | cons p t ih =>
    by_cases hp : p.1 = title
    · refine ⟨⟨p.2.title, p.2.abstract, p.2.field, some m, p.2.entities,
        p.2.relations⟩, ?_, rfl⟩
      simp [update_paper_data, get_paper_data, generate_paper_id, hp, Option.orElse,
        List.find?]
    · rw [update_paper_data_cons_ne p t title none none (some m) none none hp]
      obtain ⟨r, hr, hm⟩ := ih
      refine ⟨r, ?_, hm⟩
      simp only [get_paper_data, generate_paper_id, List.find?] at hr ⊢
      rw [show (decide (p.1 = title)) = false by simp [hp]]
      exact hr

/-- C6: writing a paper's author metadata through `update_paper_data`, then
loading a fresh `PaperCache` from the same persisted storage, reports
`has_author_metadata = True`, and the cached author extractor answers from
the cache (without invoking the LLM) with an `AuthorList` carrying exactly
the stored authors (same names, emails and order values). -/
theorem C6_cache_round_trip (file : Option CacheMap) (title : String)
    (m : List AuthorMeta) (extRes : PyAuthorResult) :
    has_author_metadata
        (load_cache (some (update_paper_data (load_cache file) title
          none none (some m) none none))) title = true
    ∧ cached_get_authors
        (load_cache (some (update_paper_data (load_cache file) title
          none none (some m) none none))) title extRes
      = (.authorList m, false,
          load_cache (some (update_paper_data (load_cache file) title
            none none (some m) none none))) := by
  obtain ⟨r, hr, hm⟩ := get_paper_data_update_am title m (load_cache file)
  have hl : load_cache (some (update_paper_data (load_cache file) title
      none none (some m) none none))
      = update_paper_data (load_cache file) title none none (some m) none none := rfl
  constructor
  · simp only [hl, has_author_metadata, hr, hm, Option.isSome]
  · simp only [hl, cached_get_authors, hr, hm, Option.bind]

/-- C7 counterexample: a cache miss whose author extraction returns an empty
`AuthorList` IS cached (a pydantic model is always truthy, so
`if result and hasattr(result, 'Authors')` accepts it): afterwards
`has_author_metadata` reports `True` and the next call answers from the cache
without invoking the extractor, so the empty result is not re-attempted. -/
theorem C7_counterexample :
    has_author_metadata (cached_get_authors [] "T" (.authorList [])).2.2 "T" = true
    ∧ (cached_get_authors (cached_get_authors [] "T" (.authorList [])).2.2 "T"
        (.authorList [⟨"Z", "", none, none⟩])).2.1 = false := by
  decide

/-- C7 (amended): on a miss, any `AuthorList` result — including an empty
one — is written back to the cache before being returned (error strings and
`None` are not cached); on the entity side, a miss yielding empty entity and
relation lists is not cached (so it is retried), while a non-empty result is
written back before being returned. -/
theorem C7_read_through_write_back :
    (∀ (c : CacheMap) (title : String) (l : List AuthorMeta),
      (get_paper_data c title).bind (fun r => r.author_metadata) = none →
      cached_get_authors c title (.authorList l)
        = (.authorList l, true, update_paper_data c title none none (some l) none none))
    ∧ (∀ (c : CacheMap) (title : String) (s : String),
      (get_paper_data c title).bind (fun r => r.author_metadata) = none →
      cached_get_authors c title (.strResult s) = (.strResult s, true, c))
    ∧ (∀ (c : CacheMap) (title : String),
      (get_paper_data c title).bind (fun r => r.author_metadata) = none →
      cached_get_authors c title .noneResult = (.noneResult, true, c))
    ∧ (∀ (c : CacheMap) (p : PaperRec),
      ((get_paper_data c p.Title).bind (fun r => r.entities)).getD [] = [] →
      cached_extract_entities c p ([], []) = (([], []), true, c))
    ∧ (∀ (c : CacheMap) (p : PaperRec) (es : List EntityRec) (rs : List RelationRec),
      ((get_paper_data c p.Title).bind (fun r => r.entities)).getD [] = [] →
      ¬ (es = [] ∧ rs = []) →
      cached_extract_entities c p (es, rs)
        = ((es, rs), true,
            update_paper_data c p.Title (some p.Abstract) p.field none (some es) (some rs))) := by
  refine ⟨?_, ?_, ?_, ?_, ?_⟩
  · intro c title l h
    unfold cached_get_authors
    rw [h]
    simp [resultTruthy, hasAuthorsAttr]
  · intro c title s h
    unfold cached_get_authors
    rw [h]
    simp [resultTruthy, hasAuthorsAttr]
  · intro c title h
    unfold cached_get_authors
    rw [h]
    simp [resultTruthy, hasAuthorsAttr]
  · intro c p h
    unfold cached_extract_entities
    rcases hg : get_paper_data c p.Title with _ | r
    · simp [cached_extract_entities.cachedEntitiesMiss]
    · rcases he : r.entities with _ | es
      · simp [cached_extract_entities.cachedEntitiesMiss, he]
      · have hes : es = [] := by simpa [hg, he] using h
        subst hes
        simp [cached_extract_entities.cachedEntitiesMiss, he]
  · intro c p es rs h hne
    have hne' : ¬(es.isEmpty = true ∧ rs.isEmpty = true) := by
      simpa [List.isEmpty_iff] using hne
    unfold cached_extract_entities
    rcases hg : get_paper_data c p.Title with _ | r
    · simp only [cached_extract_entities.cachedEntitiesMiss]
      simp [hne']
      intro h1 h2
      exact absurd ⟨h1, h2⟩ hne
    · rcases he : r.entities with _ | es'
      · simp only [he, cached_extract_entities.cachedEntitiesMiss]
        simp [hne']
        intro h1 h2
        exact absurd ⟨h1, h2⟩ hne
      · have hes : es' = [] := by simpa [hg, he] using h
        subst hes
        simp only [he, cached_extract_entities.cachedEntitiesMiss]
        simp [hne']
        intro h1 h2
        exact absurd ⟨h1, h2⟩ hne

/-- Witness for C7: the amended statement applied to a concrete miss. -/
theorem C7_read_through_write_back_witness :
    cached_get_authors [] "T" (.authorList [⟨"N", "A", some "e", some 2⟩])
      = (.authorList [⟨"N", "A", some "e", some 2⟩], true,
          update_paper_data [] "T" none none (some [⟨"N", "A", some "e", some 2⟩]) none none)
    ∧ cached_extract_entities [] ⟨"T", "abs", none⟩ ([], []) = (([], []), true, []) :=
  ⟨C7_read_through_write_back.1 [] "T" [⟨"N", "A", some "e", some 2⟩] (by decide),
    C7_read_through_write_back.2.2.2.1 [] ⟨"T", "abs", none⟩ (by decide)⟩

set_option maxHeartbeats 1000000 in
/-- C8: merging near-duplicate concept `x` into canonical `X` re-points every
edge incident on `x` to `X` with all attributes preserved (no incident edge
dropped, edge count unchanged), removes `x` from the entity index and from
the graph; in the concrete spec scenario (two concepts with one PaperConcept
edge each) one Entity node remains and both PaperEntity edges point at the
canonical entity. -/
theorem C8_merge_preserves_edges :
    (∀ (b : Builder) (s t : String) (ks kt : Nat),
      b.entities.find? (fun p => p.1 = s) = some (s, ks) →
      b.entities.find? (fun p => p.1 = t) = some (t, kt) →
      ks ≠ kt →
      (combine_entities_by_name b s t).gEdges.length = b.gEdges.length
      ∧ (∀ e' ∈ (combine_entities_by_name b s t).gEdges,
          e'.src ≠ .entity ks ∧ e'.tgt ≠ .entity ks)
      ∧ (∀ e ∈ b.gEdges, ∃ e' ∈ (combine_entities_by_name b s t).gEdges,
          e'.edge_type = e.edge_type ∧ e'.weight = e.weight
          ∧ e'.author_order = e.author_order
          ∧ e'.coauthored_papers = e.coauthored_papers
          ∧ e'.collaboration_papers = e.collaboration_papers
          ∧ e'.src = (if e.src = .entity ks then .entity kt else e.src)
          ∧ e'.tgt = (if e.tgt = .entity ks then .entity kt else e.tgt))
      ∧ (∀ p ∈ (combine_entities_by_name b s t).entities, p.1 ≠ s)
      ∧ (∀ n ∈ (combine_entities_by_name b s t).nodes, n.id ≠ .entity ks))
    ∧ ((combine_entities_by_name
          (add_paper_entity_relation
            (add_paper_entity_relation emptyBuilder ⟨"P1", "a1", none⟩
              ⟨"X", none, none, none⟩ 1)
            ⟨"P2", "a2", none⟩ ⟨"x", none, none, none⟩ 1) "x" "X").nodes.filter
        (fun n => n.node_type = "Entity")).length = 1
    ∧ (((combine_entities_by_name
          (add_paper_entity_relation
            (add_paper_entity_relation emptyBuilder ⟨"P1", "a1", none⟩
              ⟨"X", none, none, none⟩ 1)
            ⟨"P2", "a2", none⟩ ⟨"x", none, none, none⟩ 1) "x" "X").gEdges.filter
        (fun e => e.edge_type = "PaperEntity")).map (fun e => e.tgt))
      = [.entity 0, .entity 0] := by
  refine ⟨?_, by decide, by decide⟩
  intro b s t ks kt hs ht hne
  unfold combine_entities_by_name
  rw [hs, ht]
  refine ⟨by simp, ?_, ?_, ?_, ?_⟩
  · intro e' he'
    simp only [List.mem_map] at he'
    rcases he' with ⟨e, he, heq⟩
    subst heq
    constructor <;> simp <;> split <;> first | assumption | simp [Ne.symm hne]
  · intro e he
    refine ⟨_, List.mem_map_of_mem _ he, ?_⟩
    simp
  · intro p hp
    simp only [List.mem_filter, decide_eq_true_eq] at hp
    exact hp.2
  · intro n hn
    simp only [List.mem_filter, decide_eq_true_eq] at hn
    exact hn.2

/-- Witness for C8 at a concrete merge of two entities. -/
theorem C8_merge_preserves_edges_witness :
    (combine_entities_by_name
      (add_paper_entity_relation
        (add_paper_entity_relation emptyBuilder ⟨"P1", "a1", none⟩
          ⟨"X", none, none, none⟩ 1)
        ⟨"P2", "a2", none⟩ ⟨"x", none, none, none⟩ 1) "x" "X").gEdges.length
    = (add_paper_entity_relation
        (add_paper_entity_relation emptyBuilder ⟨"P1", "a1", none⟩
          ⟨"X", none, none, none⟩ 1)
        ⟨"P2", "a2", none⟩ ⟨"x", none, none, none⟩ 1).gEdges.length :=
  (C8_merge_preserves_edges.1
    (add_paper_entity_relation
      (add_paper_entity_relation emptyBuilder ⟨"P1", "a1", none⟩
        ⟨"X", none, none, none⟩ 1)
      ⟨"P2", "a2", none⟩ ⟨"x", none, none, none⟩ 1) "x" "X" 1 0
    (by decide) (by decide) (by decide)).1

theorem foldl_dedup_mem (l : List String) :
    ∀ (acc : List String) (x : String),
      (x ∈ l.foldl (fun acc y => if y ∈ acc then acc else acc ++ [y]) acc)
        ↔ (x ∈ acc ∨ x ∈ l) := by
  induction l with
  | nil => intro acc x; simp
  | cons y t ih =>
    intro acc x
    simp only [List.foldl_cons]
    rw [ih]
    by_cases hy : y ∈ acc
    · simp only [if_pos hy, List.mem_cons]
      constructor
      · rintro (h | h)
        · exact Or.inl h
        · exact Or.inr (Or.inr h)
      · rintro (h | rfl | h)
        · exact Or.inl h
        · exact Or.inl hy
        · exact Or.inr h
    · simp only [if_neg hy, List.mem_append, List.mem_singleton, List.mem_cons]
      tauto

theorem firstDedup_mem (l : List String) (x : String) :
    x ∈ firstDedup l ↔ x ∈ l := by
  unfold firstDedup
  rw [foldl_dedup_mem]
  simp

theorem find?_map_pair (g : String → Nat) (l : List String) (ty : String) :
    (l.map (fun t => (t, g t))).find? (fun p => p.1 = ty)
      = (l.find? (fun t => t = ty)).map (fun t => (t, g t)) := by
  induction l with
  | nil => rfl
  | cons x t ih =>
    simp only [List.map_cons, List.find?]
    by_cases hx : x = ty <;> simp [hx, ih]

theorem find?_key_self (l : List String) (ty : String) :
    l.find? (fun t => t = ty) = if ty ∈ l then some ty else none := by
  induction l with
  | nil => rfl
  | cons x t ih =>
    by_cases hx : x = ty
    · subst hx
      simp [List.find?]
    · simp only [List.find?]
      rw [show (decide (x = ty)) = false by simp [hx]]
      rw [ih]
      by_cases hm : ty ∈ t <;> simp [hm, Ne.symm hx]

theorem typeCounts_find (ts : List String) (ty : String) :
    ((typeCounts ts).find? (fun p => p.1 = ty)).map (fun p => p.2)
      = if ts.count ty = 0 then none else some (ts.count ty) := by
  unfold typeCounts
  rw [find?_map_pair, find?_key_self]
  by_cases hm : ty ∈ firstDedup ts
  · have hts : ty ∈ ts := (firstDedup_mem ts ty).mp hm
    simp [hm, List.count_eq_zero, hts]
  · have hts : ty ∉ ts := fun h => hm ((firstDedup_mem ts ty).mpr h)
    simp [hm, List.count_eq_zero, hts]

/-- C10: `get_graph_statistics` is not total — on a builder with no nodes the
weak-connectivity check rejects the null graph instead of returning zero
counts; on every non-empty graph it returns the statistics dictionary with
total counts and per-type node and edge counts. -/
theorem C10_statistics_rejects_empty :
    get_graph_statistics emptyBuilder
        = .error "Connectivity is undefined for the null graph."
    ∧ (∀ b : Builder, b.nodes ≠ [] →
        ∃ s, get_graph_statistics b = .ok s
          ∧ s.total_nodes = b.nodes.length
          ∧ s.total_edges = b.gEdges.length
          ∧ (∀ ty : String,
              (s.node_types.find? (fun p => p.1 = ty)).map (fun p => p.2)
                = if (b.nodes.map (fun n => n.node_type)).count ty = 0 then none
                  else some ((b.nodes.map (fun n => n.node_type)).count ty))
          ∧ (∀ ty : String,
              (s.edge_types.find? (fun p => p.1 = ty)).map (fun p => p.2)
                = if (b.gEdges.map (fun e => e.edge_type)).count ty = 0 then none
                  else some ((b.gEdges.map (fun e => e.edge_type)).count ty))) := by
  constructor
  · rfl
  · intro b hb
    refine ⟨⟨b.nodes.length, b.gEdges.length,
        typeCounts (b.nodes.map (fun n => n.node_type)),
        typeCounts (b.gEdges.map (fun e => e.edge_type)),
        decide ((weakComponents b).length = 1),
        (weakComponents b).length⟩, ?_, rfl, rfl, ?_, ?_⟩
    · unfold get_graph_statistics
      rw [if_neg (by simpa [List.isEmpty_iff] using hb)]
    · intro ty
      exact typeCounts_find (b.nodes.map (fun n => n.node_type)) ty
    · intro ty
      exact typeCounts_find (b.gEdges.map (fun e => e.edge_type)) ty

/-- Witness for C10: the non-empty branch applied to a one-paper graph. -/
theorem C10_statistics_rejects_empty_witness :
    ∃ s, get_graph_statistics (add_paper emptyBuilder ⟨"P", "a", none⟩) = .ok s
      ∧ s.total_nodes = (add_paper emptyBuilder ⟨"P", "a", none⟩).nodes.length
      ∧ s.total_edges = (add_paper emptyBuilder ⟨"P", "a", none⟩).gEdges.length
      ∧ (∀ ty : String,
          (s.node_types.find? (fun p => p.1 = ty)).map (fun p => p.2)
            = if ((add_paper emptyBuilder ⟨"P", "a", none⟩).nodes.map
                  (fun n => n.node_type)).count ty = 0 then none
              else some (((add_paper emptyBuilder ⟨"P", "a", none⟩).nodes.map
                  (fun n => n.node_type)).count ty))
      ∧ (∀ ty : String,
          (s.edge_types.find? (fun p => p.1 = ty)).map (fun p => p.2)
            = if ((add_paper emptyBuilder ⟨"P", "a", none⟩).gEdges.map
                  (fun e => e.edge_type)).count ty = 0 then none
              else some (((add_paper emptyBuilder ⟨"P", "a", none⟩).gEdges.map
                  (fun e => e.edge_type)).count ty)) :=
  C10_statistics_rejects_empty.2 (add_paper emptyBuilder ⟨"P", "a", none⟩) (by decide)
